import Mathlib

/-!
Verification of the step-wise action execution engine of the Gherkin test
generator (source: `src/api.py`).  The Python source is shallowly embedded:

* pure string manipulation (step parsing, keyword classification, popup-markup
  normalization) is translated directly into executable Lean functions;
* the browser, the language model and the cache are external collaborators;
  their visible behaviour at each call site is supplied by explicit
  environment records (`StepEnv`, `RunEnv`, `AttemptEnv`), and the control flow
  of `execute_actions_intelligently` / `execute_click_action` is reproduced
  over those environments;
* Python exceptions at a modelled call site are represented by explicit
  `exn`-style constructors in the environment; `try/except` blocks of the
  source become the corresponding case analysis.

Character predicates model the ASCII fragment of Python's `str.isalpha`,
`str.isdigit`, `str.strip` and `str.lower`, which is the fragment exercised
by every instruction text the claims speak about.
-/

namespace GherkinGen

/-! ## Character-level helpers (ASCII model of the Python `str` methods) -/

/-- ASCII model of Python `str.isalpha` on a single character. -/
def isAlphaC (c : Char) : Bool :=
  decide ((65 ≤ c.toNat ∧ c.toNat ≤ 90) ∨ (97 ≤ c.toNat ∧ c.toNat ≤ 122))

/-- ASCII model of Python `str.isdigit` on a single character. -/
def isDigitC (c : Char) : Bool :=
  decide (48 ≤ c.toNat ∧ c.toNat ≤ 57)

/-- The whitespace characters stripped by Python `str.strip()`
(space, tab, newline, carriage return, vertical tab, form feed). -/
def isPySpaceC (c : Char) : Bool :=
  decide (c.toNat = 32 ∨ c.toNat = 9 ∨ c.toNat = 10 ∨ c.toNat = 13 ∨
          c.toNat = 11 ∨ c.toNat = 12)

/-- ASCII model of Python `str.lower` on a single character. -/
def lowerC (c : Char) : Char :=
  if 65 ≤ c.toNat ∧ c.toNat ≤ 90 then Char.ofNat (c.toNat + 32) else c

/-- Python `s.lower()`. -/
def lowerStr (s : String) : String := String.mk (s.data.map lowerC)

/-- Python `s.strip()`: drop leading and trailing whitespace. -/
def pyStripChars (l : List Char) : List Char :=
  ((l.dropWhile isPySpaceC).reverse.dropWhile isPySpaceC).reverse

/-- Python substring test `needle in hay` on character lists
(an empty needle is contained in everything). -/
def containsSub (needle : List Char) : List Char → Bool
  | [] => needle.isEmpty
  | c :: rest => needle.isPrefixOf (c :: rest) || containsSub needle rest

/-- Python `sub in s` on strings. -/
def strContains (s sub : String) : Bool := containsSub sub.data s.data

/-- `p.data.isPrefixOf s.data`: the string `s` starts with `p`. -/
def strStartsWith (p s : String) : Bool := p.data.isPrefixOf s.data

/-- Python `any(keyword in s.lower() for keyword in kws)`. -/
def containsAny (s : String) (kws : List String) : Bool :=
  kws.any (fun k => strContains (lowerStr s) k)

/-! ## Step parser

`execute_actions_intelligently` (api.py lines 529-539) splits the instruction
text on newlines, strips each line, discards lines without an alphabetic
character, and removes a leading enumeration marker
(`re.sub(r'^\d+[\.\)]\s*', '', line)`). -/

/-- Python `instructions.split('\n')` on character lists: split at every
newline, keeping empty pieces. -/
def splitLines : List Char → List (List Char)
  | [] => [[]]
  | c :: rest =>
    if c.toNat = 10 then [] :: splitLines rest
    else
      match splitLines rest with
      | [] => [[c]]
      | h :: t => (c :: h) :: t

/-- The regex substitution `re.sub(r'^\d+[\.\)]\s*', '', line)`: one or more
digits followed by a single `.` or `)` and optional whitespace are removed
from the front; anything else leaves the line unchanged. -/
def stripEnumChars (l : List Char) : List Char :=
  match l.takeWhile isDigitC, l.dropWhile isDigitC with
  | [], _ => l
  | _ :: _, c :: rest2 =>
    if c.toNat = 46 ∨ c.toNat = 41 then rest2.dropWhile isPySpaceC else l
  | _ :: _, [] => l

/-- The step parser of api.py lines 529-539. -/
def parseSteps (instructions : String) : List String :=
  (splitLines instructions.data).filterMap fun line =>
    let l := pyStripChars line
    if l.isEmpty then none
    else if !(l.any isAlphaC) then none
    else
      let l2 := stripEnumChars l
      if l2.isEmpty then none else some (String.mk l2)

/-- The step parser as the specification words it: the ordered sequence of
trimmed lines that contain at least one alphabetic character, each with its
leading enumeration marker removed. -/
def parseStepsSpec (instructions : String) : List String :=
  ((((splitLines instructions.data).map pyStripChars).filter
    (fun l => l.any isAlphaC)).map (fun l => String.mk (stripEnumChars l)))

/-! ## Step classifier (api.py lines 550-566) -/

def popup_related_keywords : List String :=
  ["popup", "modal", "dialog", "cancel", "close", "continue", "confirm", "ok"]

def popup_control_keywords : List String :=
  ["cancel", "close", "continue", "confirm", "ok", "dismiss"]

def observation_phrases : List String :=
  ["popup appears", "modal appears", "dialog appears",
   "popup closes", "modal closes", "dialog closes",
   "popup is visible", "modal is visible", "dialog is visible",
   "verify popup", "check popup", "popup should"]

def action_words : List String := ["click", "press", "tap", "select"]

/-- api.py line 551: is this step popup-related? -/
def is_popup_step (s : String) : Bool := containsAny s popup_related_keywords

/-- api.py line 555: is this a popup button (popup-control) step? -/
def is_popup_button_step (s : String) : Bool := containsAny s popup_control_keywords

/-- api.py line 559: does the step contain an observation phrase? -/
def is_observation_step (s : String) : Bool := containsAny s observation_phrases

/-- api.py line 566: does the step contain an action verb? -/
def has_action_word (s : String) : Bool := containsAny s action_words

/-- The guard of api.py line 566: an observation phrase is present and no
action verb is. -/
def pure_observation (s : String) : Bool :=
  is_observation_step s && !has_action_word s

/-! ## Session orchestrator (`execute_actions_intelligently`, api.py 500-723)

External collaborators are modelled per step by a `StepEnv` record:

* `popupVisible` — the answer of `is_popup_visible(page)` (api.py 457-476;
  it swallows every probing error, so it is a total Bool);
* `popupHtml` — the string returned by `extract_popup_html(page)`
  (api.py 423-454; it also swallows errors, `""` means no modal found);
* `contentOk` — whether `page.content()` returns normally (`false`: it
  raises, which the source turns into a `"Step N: Failed to get page
  content"` error entry and a `continue`);
* `resolve` — the behaviour of `get_single_action_from_step`
  (api.py 767-967): `noAction` for a `None` result (observation / malformed
  model output), `act a` for a returned action dict, and `exn m` for an
  exception escaping it (the model client call at api.py 924/937 is outside
  its `try`, so such an exception escapes the whole step loop);
* `exec` — the behaviour of the invoked action mechanism
  (`execute_click_action` / `execute_hover_action`): `ret b` for a normal
  Boolean return, `exn m` for a raised exception (api.py 681-700).

The runner additionally records, as ghost instrumentation for call-count
claims, the step indices at which the resolver and the executor were
invoked (`resolverCalls`, `execCalls`). -/

/-- Result of invoking an action mechanism: normal Boolean return, or a
raised exception. -/
inductive ExecRes where
  | ret (b : Bool)
  | exn (msg : String)
deriving DecidableEq

/-- The action dict returned by the element resolver
(`{"action": ..., "selector": ..., "use_text_locator": ...}`).  `kind` is a
free-form string, exactly as in the JSON produced by the model. -/
structure RAction where
  kind : String
  selector : String
  useTextLocator : Bool
deriving DecidableEq

/-- Behaviour of `get_single_action_from_step` at one call site. -/
inductive ResolveRes where
  | noAction
  | act (a : RAction)
  | exn (msg : String)
deriving DecidableEq

/-- The externally observable world for one step of the loop. -/
structure StepEnv where
  popupVisible : Bool
  popupHtml : String
  contentOk : Bool
  resolve : ResolveRes
  exec : ExecRes
deriving DecidableEq

/-- One entry of `all_results["actions_executed"]`.  Fields that a given
branch of the source does not put into the dict are `none`. -/
structure Outcome where
  step : String
  action : String
  success : Bool
  selector : Option String
  note : Option String
  error : Option String
  useTextLocator : Option Bool
deriving DecidableEq

/-- What the loop does after one step: continue, `break` (api.py 700), or an
exception escaping the loop body (caught only by the top-level handler at
api.py 719). -/
inductive Next where
  | cont
  | halt
  | fatalExn (msg : String)
deriving DecidableEq

/-- Everything one iteration of the step loop contributes. -/
structure StepOut where
  outcomes : List Outcome
  errs : List String
  resolverCalled : Bool
  execCalled : Bool
  next : Next
deriving DecidableEq

/-- Outcome appended by the pure-observation branch (api.py 568-573). -/
def obsOutcome (s : String) : Outcome :=
  ⟨s, "observation", true, none,
   some "Observation/verification step - no action required", none, none⟩

/-- Outcome appended when a popup-control step finds no visible popup
(api.py 582-587). -/
def skipOutcome (s : String) : Outcome :=
  ⟨s, "skip", true, none,
   some "Popup not visible - already closed or step completed", none, none⟩

/-- Outcome appended when the popup disappeared between the visibility check
and the markup extraction (api.py 605-610). -/
def skipGoneOutcome (s : String) : Outcome :=
  ⟨s, "skip", true, none, some "Popup disappeared - already closed", none, none⟩

/-- Outcome appended when the resolver returns no action (api.py 642-647). -/
def noneOutcome (s : String) : Outcome :=
  ⟨s, "none", true, none, some "Observation/verification step", none, none⟩

/-- Outcome appended after a click attempt returns (api.py 664-670). -/
def clickOutcome (s : String) (a : RAction) (b : Bool) : Outcome :=
  ⟨s, "click", b, some a.selector, none, none, some a.useTextLocator⟩

/-- Outcome appended after a hover attempt returns (api.py 674-679). -/
def hoverOutcome (s : String) (a : RAction) (b : Bool) : Outcome :=
  ⟨s, "hover", b, some a.selector, none, none, none⟩

/-- The `except` branch of the execution block (api.py 681-700): record the
failed outcome, the error message, the terminal STOPPED marker, and break. -/
def haltStep (s : String) (i : Nat) (a : RAction) (m : String) : StepOut :=
  let errMsg :=
    "Failed to execute " ++ a.kind ++ " on " ++ a.selector ++ ": " ++ m
  ⟨[⟨s, a.kind, false, some a.selector, none, some m, none⟩],
   [errMsg, "STOPPED at step " ++ Nat.repr i ++ ": " ++ errMsg],
   true, true, .halt⟩

/-- The `except` branch of the markup-capture block (api.py 632-635). -/
def contentFail (i : Nat) : StepOut :=
  ⟨[], ["Step " ++ Nat.repr i ++ ": Failed to get page content"],
   false, false, .cont⟩

/-- api.py 637-700: call the resolver and act on its answer (`rr` is the
resolver's behaviour, `ex` the executor's).  An action kind other than
`click` / `hover` matches neither branch of the source and falls through
silently (no outcome, no execution). -/
def resolvePhase (rr : ResolveRes) (ex : ExecRes) (i : Nat) (s : String) :
    StepOut :=
  match rr with
  | .exn m => ⟨[], [], true, false, .fatalExn m⟩
  | .noAction => ⟨[noneOutcome s], [], true, false, .cont⟩
  | .act a =>
    if a.kind = "click" then
      match ex with
      | .ret b => ⟨[clickOutcome s a b], [], true, true, .cont⟩
      | .exn m => haltStep s i a m
    else if a.kind = "hover" then
      match ex with
      | .ret b => ⟨[hoverOutcome s a b], [], true, true, .cont⟩
      | .exn m => haltStep s i a m
    else ⟨[], [], true, false, .cont⟩

/-- One iteration of the step loop (api.py 544-700) for 1-based step index
`i` with step text `s`. -/
def processStep (e : StepEnv) (i : Nat) (s : String) : StepOut :=
  if pure_observation s then
    ⟨[obsOutcome s], [], false, false, .cont⟩
  else if is_popup_button_step s && !e.popupVisible then
    ⟨[skipOutcome s], [], false, false, .cont⟩
  else if is_popup_step s && !is_observation_step s then
    if is_popup_button_step s then
      if e.popupHtml = "" then ⟨[skipGoneOutcome s], [], false, false, .cont⟩
      else resolvePhase e.resolve e.exec i s
    else if e.popupHtml = "" && !e.contentOk then contentFail i
    else resolvePhase e.resolve e.exec i s
  else if e.contentOk then resolvePhase e.resolve e.exec i s
  else contentFail i

/-- How one run ended: the loop ran to completion, `break` fired at step
`n`, or an exception reached the top-level handler. -/
inductive RTerm where
  | completed
  | halted (n : Nat)
  | fatal (msg : String)
deriving DecidableEq

/-- Accumulated output of the step loop. -/
structure LoopOut where
  outcomes : List Outcome
  errs : List String
  resolverCalls : List Nat
  execCalls : List Nat
  term : RTerm
deriving DecidableEq

/-- Ghost call markers contributed by one step. -/
def callsOf (b : Bool) (i : Nat) : List Nat := if b then [i] else []

/-- The `for i, step in enumerate(steps, 1)` loop of api.py 544-700. -/
def stepLoop (env : Nat → StepEnv) : Nat → List String → LoopOut
  | _, [] => ⟨[], [], [], [], .completed⟩
  | i, s :: rest =>
    let r := processStep (env i) i s
    match r.next with
    | .cont =>
      let t := stepLoop env (i + 1) rest
      ⟨r.outcomes ++ t.outcomes, r.errs ++ t.errs,
       callsOf r.resolverCalled i ++ t.resolverCalls,
       callsOf r.execCalled i ++ t.execCalls, t.term⟩
    | .halt =>
      ⟨r.outcomes, r.errs, callsOf r.resolverCalled i,
       callsOf r.execCalled i, .halted i⟩
    | .fatalExn m =>
      ⟨r.outcomes, r.errs, callsOf r.resolverCalled i,
       callsOf r.execCalled i, .fatal m⟩

/-- The collaborators of a whole run: `start = some m` means launching the
browser / opening the page raised `m` before any step ran (api.py 520-527);
`finalUrl` is `page.url` when the loop exits normally (api.py 702). -/
structure RunEnv where
  start : Option String
  steps : Nat → StepEnv
  finalUrl : String

/-- The run's `all_results` dict, extended with the ghost call lists and the
termination tag. -/
structure RunResult where
  actions_executed : List Outcome
  errors : List String
  final_url : String
  resolverCalls : List Nat
  execCalls : List Nat
  term : RTerm
deriving DecidableEq

/-- `execute_actions_intelligently` (api.py 500-723): parse the instruction
text, run the step loop, and catch any exception that escapes it, recording
it as a single `"Fatal error: ..."` entry and returning the partial results
(the function always returns a `RunResult`, never propagates). On the fatal
path `final_url` keeps its initial value `url` (api.py 516, 702). -/
def execute_actions_intelligently (renv : RunEnv) (url instructions : String) :
    RunResult :=
  match renv.start with
  | some m => ⟨[], ["Fatal error: " ++ m], url, [], [], .fatal m⟩
  | none =>
    let lo := stepLoop renv.steps 1 (parseSteps instructions)
    match lo.term with
    | .fatal m =>
      ⟨lo.outcomes, lo.errs ++ ["Fatal error: " ++ m], url,
       lo.resolverCalls, lo.execCalls, .fatal m⟩
    | .completed =>
      ⟨lo.outcomes, lo.errs, renv.finalUrl, lo.resolverCalls, lo.execCalls,
       .completed⟩
    | .halted n =>
      ⟨lo.outcomes, lo.errs, renv.finalUrl, lo.resolverCalls, lo.execCalls,
       .halted n⟩

/-! ## Click executor (`execute_click_action`, api.py 251-420)

The browser's behaviour during one strategy attempt is modelled by an
`AttemptEnv`: whether element resolution and the DOM-attachment wait succeed
(`attachOk`; any exception there is caught by the attempt's `try` and the
loop moves on), whether the element is visible (`visible`; a visibility-
requiring strategy `continue`s when it is not, api.py 375-382), and whether
the strategy's click mechanism itself raises (`clickExn`; caught at
api.py 415-417 and the loop moves on). -/

/-- The world as seen by one strategy attempt. -/
structure AttemptEnv where
  attachOk : Bool
  visible : Bool
  clickExn : Option String
deriving DecidableEq

/-- The fixed strategy table of api.py 283-304: name and `require_visible`
flag, in source order. -/
def clickStrategies : List (String × Bool) :=
  [("Standard click (visible)", true),
   ("Force click (visible)", true),
   ("JS click (bypass visibility)", false),
   ("Dispatch click (bypass visibility)", false)]

/-- Whether one strategy attempt reaches `return True` (api.py 306-413):
the element must attach, a visibility-requiring strategy additionally needs
visibility, and the click mechanism must not raise. -/
def strategySucceeds (requireVisible : Bool) (a : AttemptEnv) : Bool :=
  a.attachOk && (!requireVisible || a.visible) && a.clickExn.isNone

/-- The `for strategy in strategies` loop (api.py 306-420), also returning
the list of attempted strategy indices.  Every failure mode — including an
exception raised inside the attempt — falls through to the next strategy;
exhaustion returns `false` (api.py 419-420). -/
def clickLoop (env : Nat → AttemptEnv) :
    List (String × Bool) → Nat → Bool × List Nat
  | [], _ => (false, [])
  | (_, rv) :: rest, k =>
    if strategySucceeds rv (env k) then (true, [k])
    else
      let t := clickLoop env rest (k + 1)
      (t.1, k :: t.2)

/-- `execute_click_action`, reduced to its strategy-fallback behaviour:
result Boolean plus the trace of attempted strategies. -/
def execute_click_action (env : Nat → AttemptEnv) : Bool × List Nat :=
  clickLoop env clickStrategies 0

/-- Success of strategy `j` under `env`, looked up in the fixed table
(ill-indexed strategies never succeed). -/
def succAt (env : Nat → AttemptEnv) (j : Nat) : Bool :=
  match clickStrategies[j]? with
  | some nrv => strategySucceeds nrv.2 (env j)
  | none => false

/-! ## Popup-markup normalization (`normalize_popup_html_for_cache`,
api.py 726-764)

The source parses the popup markup with an HTML parser and then walks the
resulting element tree; the embedding works on that parsed tree directly.
A `Node` is a text node or an element with a tag, an attribute list and
children; `renderNode` recovers the serialized markup whose character count
is the Python `len(html)`. -/

/-- Parsed HTML node. -/
inductive Node where
  | text (s : String)
  | elem (tag : String) (attrs : List (String × String)) (children : List Node)

/-- One collected interactive element: tag name, visible text, restricted
attribute list. -/
structure NButton where
  tag : String
  text : String
  attrs : List (String × String)
deriving DecidableEq

/-- BeautifulSoup `get_text(strip=True)`: the stripped text pieces of all
descendant text nodes, concatenated. -/
def textPieces : Node → List String
  | .text s => [s]
  | .elem _ _ cs => textPiecesList cs
where
  textPiecesList : List Node → List String
  | [] => []
  | n :: rest => textPieces n ++ textPiecesList rest

/-- `get_text(strip=True)` of one element's children list. -/
def getTextStripped (cs : List Node) : String :=
  String.join (((textPieces.textPiecesList cs).map
    (fun s => String.mk (pyStripChars s.data))).filter (fun s => s ≠ ""))

/-- First value of an attribute, as `button.get(attr)`. -/
def getAttr (attrs : List (String × String)) (k : String) : Option String :=
  (attrs.find? (fun p => p.1 = k)).map (fun p => p.2)

/-- The restricted attribute dict of api.py 743-746: `type` then `role`,
kept only when present and non-empty (Python truthiness). -/
def keepAttrs (attrs : List (String × String)) : List (String × String) :=
  (match getAttr attrs "type" with
   | some v => if v = "" then [] else [("type", v)]
   | none => []) ++
  (match getAttr attrs "role" with
   | some v => if v = "" then [] else [("role", v)]
   | none => [])

/-- `soup.find_all(['button', 'a', 'input'])` in document (pre-)order,
composed with the text filter of api.py 737-752: every matching element
with non-empty stripped text yields one `NButton`. -/
def buttonsOfNode : Node → List NButton
  | .text _ => []
  | .elem tag attrs cs =>
    (if tag = "button" ∨ tag = "a" ∨ tag = "input" then
      (let t := getTextStripped cs
       if t = "" then [] else [⟨tag, t, keepAttrs attrs⟩])
     else []) ++ buttonsOfList cs
where
  buttonsOfList : List Node → List NButton
  | [] => []
  | n :: rest => buttonsOfNode n ++ buttonsOfList rest

/-- The buttons collected from a popup document (list of top-level nodes). -/
def collectButtons (doc : List Node) : List NButton :=
  doc.flatMap buttonsOfNode

/-- Serialize a node back to markup text; only its length matters (it is the
Python `len(html)` of the string the source was handed). -/
def renderNode : Node → String
  | .text s => s
  | .elem tag attrs cs =>
    "<" ++ tag ++
      String.join (attrs.map (fun p => " " ++ p.1 ++ "=\"" ++ p.2 ++ "\"")) ++
      ">" ++ renderList cs ++ "</" ++ tag ++ ">"
where
  renderList : List Node → String
  | [] => ""
  | n :: rest => renderNode n ++ renderList rest

/-- The markup of a whole popup document. -/
def renderDoc (doc : List Node) : String := renderNode.renderList doc

/-- Lexicographic comparison of character lists by code point, the order
Python string comparison uses. -/
def charLeb : List Char → List Char → Bool
  | [], _ => true
  | _ :: _, [] => false
  | a :: as, b :: bs =>
    if a.toNat < b.toNat then true
    else if b.toNat < a.toNat then false
    else charLeb as bs

/-- `sorted(buttons, key=lambda x: x['text'])`: the stable ascending order
on the button text. -/
def btnLE (a b : NButton) : Prop := charLeb a.text.data b.text.data = true

instance : DecidableRel btnLE := fun a b => by
  unfold btnLE; infer_instance

/-- JSON string escaping for the characters that occur in the data the
claims exercise (quote, backslash, and the common control characters). -/
def escapeJson (s : String) : String :=
  String.join (s.data.map fun c =>
    if c.toNat = 34 then "\\\""
    else if c.toNat = 92 then "\\\\"
    else if c.toNat = 10 then "\\n"
    else if c.toNat = 13 then "\\r"
    else if c.toNat = 9 then "\\t"
    else String.mk [c])

/-- A JSON string literal. -/
def jsonStr (s : String) : String := "\"" ++ escapeJson s ++ "\""

/-- `json.dumps` of the attrs dict with `sort_keys=True` (keys sorted, `, `
and `: ` separators). -/
def serializeAttrs (attrs : List (String × String)) : String :=
  "\x7b" ++
    String.intercalate ", "
      ((List.insertionSort (fun p q : String × String =>
          charLeb p.1.data q.1.data = true) attrs).map
        (fun p => jsonStr p.1 ++ ": " ++ jsonStr p.2)) ++
  "\x7d"

/-- `json.dumps` of one button dict with `sort_keys=True`
(key order: attrs, tag, text). -/
def serializeButton (b : NButton) : String :=
  "\x7b\"attrs\": " ++ serializeAttrs b.attrs ++
    ", \"tag\": " ++ jsonStr b.tag ++
    ", \"text\": " ++ jsonStr b.text ++ "\x7d"

/-- `normalize_popup_html_for_cache` (api.py 726-764) on the parsed popup
markup: collect the button/link/input elements with non-empty text, sort
them by text, and serialize `{'buttons': ..., 'html_length': len(html)}`
with sorted keys. -/
def normalize_popup_html_for_cache (doc : List Node) : String :=
  "\x7b\"buttons\": [" ++
    String.intercalate ", "
      ((List.insertionSort btnLE (collectButtons doc)).map serializeButton) ++
    "], \"html_length\": " ++ Nat.repr (renderDoc doc).length ++ "\x7d"

/-! ## Helper lemmas: characters and lists -/

theorem charToNat_inj {c d : Char} (h : c.toNat = d.toNat) : c = d := by
  unfold Char.toNat at h
  exact Char.ext (UInt32.ext h)

theorem isDigitC_not_alpha {c : Char} (h : isDigitC c = true) :
    isAlphaC c = false := by
  unfold isDigitC at h
  unfold isAlphaC
  simp only [decide_eq_true_eq] at h
  simp only [decide_eq_false_iff_not]
  omega

theorem isPySpaceC_not_alpha {c : Char} (h : isPySpaceC c = true) :
    isAlphaC c = false := by
  unfold isPySpaceC at h
  unfold isAlphaC
  simp only [decide_eq_true_eq] at h
  simp only [decide_eq_false_iff_not]
  omega

theorem any_dropWhile_eq {p q : Char → Bool}
    (hpq : ∀ c, p c = true → q c = false) :
    ∀ l : List Char, (l.dropWhile p).any q = l.any q := by
  intro l
  induction l with
  | nil => rfl
  | cons c rest ih =>
    by_cases hc : p c = true
    · rw [List.dropWhile_cons_of_pos hc, ih, List.any_cons, hpq c hc,
        Bool.false_or]
    · rw [List.dropWhile_cons_of_neg hc]

theorem any_alpha_ne_nil {l : List Char} (h : l.any isAlphaC = true) :
    l.isEmpty = false := by
  cases l with
  | nil => simp at h
  | cons c rest => rfl

theorem stripEnumChars_keeps_alpha {l : List Char}
    (h : l.any isAlphaC = true) : (stripEnumChars l).any isAlphaC = true := by
  unfold stripEnumChars
  cases htake : l.takeWhile isDigitC with
  | nil => exact h
  | cons d ds =>
    cases hdrop : l.dropWhile isDigitC with
    | nil => exact h
    | cons c rest2 =>
      by_cases hc : c.toNat = 46 ∨ c.toNat = 41
      · simp only [if_pos hc]
        have hl : (d :: ds) ++ (c :: rest2) = l := by
          rw [← htake, ← hdrop]; exact List.takeWhile_append_dropWhile _ _
        rw [← hl, List.any_append] at h
        have hds : (d :: ds).any isAlphaC = false := by
          rw [Bool.eq_false_iff]
          intro hany
          rw [List.any_eq_true] at hany
          obtain ⟨x, hx, hxa⟩ := hany
          have hxd : isDigitC x = true := by
            apply List.mem_takeWhile_imp
            rw [htake]; exact hx
          rw [isDigitC_not_alpha hxd] at hxa
          exact Bool.false_ne_true hxa
        have hca : isAlphaC c = false := by
          unfold isAlphaC
          simp only [decide_eq_false_iff_not]
          omega
        rw [hds, Bool.false_or, List.any_cons, hca, Bool.false_or] at h
        rw [any_dropWhile_eq (fun x hx => isPySpaceC_not_alpha hx)]
        exact h
      · simp only [if_neg hc]; exact h

/-! ## C8: the step parser -/

theorem parseSteps_line_eq (L : List (List Char)) :
    (L.filterMap fun line =>
      let l := pyStripChars line
      if l.isEmpty then none
      else if !(l.any isAlphaC) then none
      else
        let l2 := stripEnumChars l
        if l2.isEmpty then none else some (String.mk l2)) =
    (((L.map pyStripChars).filter (fun l => l.any isAlphaC)).map
      (fun l => String.mk (stripEnumChars l))) := by
  induction L with
  | nil => rfl
  | cons line rest ih =>
    cases hA : (pyStripChars line).any isAlphaC with
    | false =>
      simp only [List.filterMap_cons, List.map_cons, List.filter_cons, hA,
        Bool.not_false, if_true, ite_self, Bool.false_eq_true, if_false]
      exact ih
    | true =>
      have he := any_alpha_ne_nil hA
      have he2 := any_alpha_ne_nil (stripEnumChars_keeps_alpha hA)
      simp only [List.filterMap_cons, List.map_cons, List.filter_cons, hA,
        he, he2, Bool.not_true, Bool.false_eq_true, if_false, if_true]
      rw [ih]

/-- C8 (confirmed).  The step parser maps the instruction text to the
ordered sequence of its trimmed lines containing at least one alphabetic
character, with any leading enumeration marker (digits followed by a dot or
a closing parenthesis) removed; the line `3. Click the Submit button` yields
the step `Click the Submit button`; lines with no alphabetic character are
discarded; an empty result is valid. -/
theorem C8_step_parsing :
    (∀ instructions : String, parseSteps instructions =
      parseStepsSpec instructions) ∧
    parseSteps "3. Click the Submit button" = ["Click the Submit button"] ∧
    parseSteps "1.\n ---- \n2)\n" = [] := by
  refine ⟨?_, ?_, ?_⟩
  · intro instructions
    unfold parseSteps parseStepsSpec
    exact parseSteps_line_eq (splitLines instructions.data)
  · decide
  · decide

/-! ## Single-step lemmas about `processStep` -/

theorem processStep_obs {s : String} (e : StepEnv) (i : Nat)
    (h1 : is_observation_step s = true) (h2 : has_action_word s = false) :
    processStep e i s = ⟨[obsOutcome s], [], false, false, .cont⟩ := by
  unfold processStep
  have hp : pure_observation s = true := by
    unfold pure_observation; rw [h1, h2]; rfl
  rw [if_pos hp]

theorem processStep_skip {s : String} (e : StepEnv) (i : Nat)
    (h1 : is_popup_button_step s = true) (h2 : pure_observation s = false)
    (h3 : e.popupVisible = false) :
    processStep e i s = ⟨[skipOutcome s], [], false, false, .cont⟩ := by
  unfold processStep
  rw [h2, if_neg (by simp), if_pos (by rw [h1, h3]; rfl)]

theorem resolvePhase_outcomes_shape (rr : ResolveRes) (ex : ExecRes)
    (i : Nat) (s : String) :
    (resolvePhase rr ex i s).outcomes = [] ∨
      ∃ o, (resolvePhase rr ex i s).outcomes = [o] ∧ o.step = s := by
  cases rr with
  | noAction => exact Or.inr ⟨_, rfl, rfl⟩
  | exn m => exact Or.inl rfl
  | act a =>
    simp only [resolvePhase]
    by_cases hc : a.kind = "click"
    · rw [if_pos hc]
      cases ex with
      | ret b => exact Or.inr ⟨_, rfl, rfl⟩
      | exn m => exact Or.inr ⟨_, rfl, rfl⟩
    · rw [if_neg hc]
      by_cases hh : a.kind = "hover"
      · rw [if_pos hh]
        cases ex with
        | ret b => exact Or.inr ⟨_, rfl, rfl⟩
        | exn m => exact Or.inr ⟨_, rfl, rfl⟩
      · rw [if_neg hh]
        exact Or.inl rfl

theorem processStep_outcomes_shape (e : StepEnv) (i : Nat) (s : String) :
    (processStep e i s).outcomes = [] ∨
      ∃ o, (processStep e i s).outcomes = [o] ∧ o.step = s := by
  unfold processStep
  split
  · exact Or.inr ⟨_, rfl, rfl⟩
  split
  · exact Or.inr ⟨_, rfl, rfl⟩
  split
  · split
    · split
      · exact Or.inr ⟨_, rfl, rfl⟩
      · exact resolvePhase_outcomes_shape e.resolve e.exec i s
    · split
      · exact Or.inl rfl
      · exact resolvePhase_outcomes_shape e.resolve e.exec i s
  · split
    · exact resolvePhase_outcomes_shape e.resolve e.exec i s
    · exact Or.inl rfl

theorem processStep_outcomes_len (e : StepEnv) (i : Nat) (s : String) :
    (processStep e i s).outcomes.length ≤ 1 := by
  rcases processStep_outcomes_shape e i s with h | ⟨o, h, _⟩ <;> rw [h] <;> simp

theorem processStep_steps_sublist (e : StepEnv) (i : Nat) (s : String) :
    ((processStep e i s).outcomes.map Outcome.step).Sublist [s] := by
  rcases processStep_outcomes_shape e i s with h | ⟨o, h, hstep⟩
  · rw [h]; exact List.nil_sublist _
  · rw [h, List.map_cons, List.map_nil, hstep]

theorem resolvePhase_execCalled (rr : ResolveRes) (ex : ExecRes)
    (i : Nat) (s : String)
    (h : (resolvePhase rr ex i s).execCalled = true) :
    ∃ a, rr = .act a ∧ (a.kind = "click" ∨ a.kind = "hover") := by
  cases rr with
  | noAction => simp [resolvePhase] at h
  | exn m => simp [resolvePhase] at h
  | act a =>
    refine ⟨a, rfl, ?_⟩
    simp only [resolvePhase] at h
    by_cases hc : a.kind = "click"
    · exact Or.inl hc
    · rw [if_neg hc] at h
      by_cases hh : a.kind = "hover"
      · exact Or.inr hh
      · rw [if_neg hh] at h; simp at h

theorem resolvePhase_exn {a : RAction} {m : String} (i : Nat) (s : String)
    (hk : a.kind = "click" ∨ a.kind = "hover") :
    resolvePhase (.act a) (.exn m) i s = haltStep s i a m := by
  simp only [resolvePhase]
  rcases hk with hk | hk
  · rw [if_pos hk]
  · have hnc : ¬(a.kind = "click") := by rw [hk]; decide
    rw [if_neg hnc, if_pos hk]

theorem processStep_cases (e : StepEnv) (i : Nat) (s : String) :
    processStep e i s = ⟨[obsOutcome s], [], false, false, .cont⟩ ∨
    processStep e i s = ⟨[skipOutcome s], [], false, false, .cont⟩ ∨
    processStep e i s = ⟨[skipGoneOutcome s], [], false, false, .cont⟩ ∨
    processStep e i s = contentFail i ∨
    processStep e i s = resolvePhase e.resolve e.exec i s := by
  unfold processStep
  split
  · exact Or.inl rfl
  split
  · exact Or.inr (Or.inl rfl)
  split
  · split
    · split
      · exact Or.inr (Or.inr (Or.inl rfl))
      · exact Or.inr (Or.inr (Or.inr (Or.inr rfl)))
    · split
      · exact Or.inr (Or.inr (Or.inr (Or.inl rfl)))
      · exact Or.inr (Or.inr (Or.inr (Or.inr rfl)))
  · split
    · exact Or.inr (Or.inr (Or.inr (Or.inr rfl)))
    · exact Or.inr (Or.inr (Or.inr (Or.inl rfl)))

theorem processStep_execCalled_eq (e : StepEnv) (i : Nat) (s : String)
    (h : (processStep e i s).execCalled = true) :
    processStep e i s = resolvePhase e.resolve e.exec i s := by
  rcases processStep_cases e i s with h1 | h1 | h1 | h1 | h1
  · rw [h1] at h; simp at h
  · rw [h1] at h; simp at h
  · rw [h1] at h; simp at h
  · rw [h1] at h; simp [contentFail] at h
  · exact h1

theorem resolvePhase_fatal (rr : ResolveRes) (ex : ExecRes) (i : Nat)
    (s : String) (m : String)
    (h : (resolvePhase rr ex i s).next = .fatalExn m) :
    resolvePhase rr ex i s = ⟨[], [], true, false, .fatalExn m⟩ := by
  cases rr with
  | noAction => simp [resolvePhase] at h
  | exn m2 =>
    simp only [resolvePhase, Next.fatalExn.injEq] at h
    simp only [resolvePhase, h]
  | act a =>
    simp only [resolvePhase] at h
    by_cases hc : a.kind = "click"
    · rw [if_pos hc] at h
      cases ex with
      | ret b => simp at h
      | exn m2 => simp [haltStep] at h
    · rw [if_neg hc] at h
      by_cases hh : a.kind = "hover"
      · rw [if_pos hh] at h
        cases ex with
        | ret b => simp at h
        | exn m2 => simp [haltStep] at h
      · rw [if_neg hh] at h; simp at h

theorem processStep_fatal (e : StepEnv) (i : Nat) (s : String) (m : String)
    (h : (processStep e i s).next = .fatalExn m) :
    (processStep e i s).execCalled = false := by
  rcases processStep_cases e i s with h1 | h1 | h1 | h1 | h1
  · rw [h1] at h; simp at h
  · rw [h1] at h; simp at h
  · rw [h1] at h; simp at h
  · rw [h1] at h; simp [contentFail] at h
  · rw [h1] at h
    rw [h1, resolvePhase_fatal e.resolve e.exec i s m h]

/-! ## String-prefix helpers for error entries -/

theorem strStartsWith_append (p r : String) :
    strStartsWith p (p ++ r) = true := by
  unfold strStartsWith
  rw [String.data_append]
  exact List.isPrefixOf_iff_prefix.mpr (List.prefix_append _ _)

theorem fatal_not_sw_step (r : String) :
    strStartsWith "Fatal error: " ("Step " ++ r) = false := by
  unfold strStartsWith
  rw [String.data_append]
  rfl

theorem fatal_not_sw_failed (r : String) :
    strStartsWith "Fatal error: " ("Failed to execute " ++ r) = false := by
  unfold strStartsWith
  rw [String.data_append]
  rfl

theorem fatal_not_sw_stopped (r : String) :
    strStartsWith "Fatal error: " ("STOPPED at step " ++ r) = false := by
  unfold strStartsWith
  rw [String.data_append]
  rfl

theorem resolvePhase_errs_not_fatal (rr : ResolveRes) (ex : ExecRes)
    (i : Nat) (s : String) :
    ∀ err ∈ (resolvePhase rr ex i s).errs,
      strStartsWith "Fatal error: " err = false := by
  intro err herr
  cases rr with
  | noAction => simp [resolvePhase] at herr
  | exn m => simp [resolvePhase] at herr
  | act a =>
    simp only [resolvePhase] at herr
    by_cases hc : a.kind = "click"
    · rw [if_pos hc] at herr
      cases ex with
      | ret b => simp at herr
      | exn m =>
        simp only [haltStep, List.mem_cons, List.mem_singleton,
          List.not_mem_nil, or_false] at herr
        rcases herr with herr | herr <;> rw [herr] <;>
          rw [String.append_assoc, String.append_assoc, String.append_assoc]
        · exact fatal_not_sw_failed _
        · exact fatal_not_sw_stopped _
    · rw [if_neg hc] at herr
      by_cases hh : a.kind = "hover"
      · rw [if_pos hh] at herr
        cases ex with
        | ret b => simp at herr
        | exn m =>
          simp only [haltStep, List.mem_cons, List.mem_singleton,
            List.not_mem_nil, or_false] at herr
          rcases herr with herr | herr <;> rw [herr] <;>
            rw [String.append_assoc, String.append_assoc, String.append_assoc]
          · exact fatal_not_sw_failed _
          · exact fatal_not_sw_stopped _
      · rw [if_neg hh] at herr; simp at herr

theorem processStep_errs_not_fatal (e : StepEnv) (i : Nat) (s : String) :
    ∀ err ∈ (processStep e i s).errs,
      strStartsWith "Fatal error: " err = false := by
  intro err herr
  rcases processStep_cases e i s with h1 | h1 | h1 | h1 | h1 <;> rw [h1] at herr
  · simp at herr
  · simp at herr
  · simp at herr
  · simp only [contentFail, List.mem_singleton] at herr
    rw [herr, String.append_assoc]
    exact fatal_not_sw_step _
  · exact resolvePhase_errs_not_fatal e.resolve e.exec i s err herr

/-! ## Loop-level lemmas about `stepLoop` -/

theorem callsOf_mem {b : Bool} {i j : Nat} (h : j ∈ callsOf b i) :
    b = true ∧ j = i := by
  cases b with
  | false => simp [callsOf] at h
  | true =>
    simp only [callsOf, if_true, List.mem_singleton] at h
    exact ⟨rfl, h⟩

theorem stepLoop_cons_cont (env : Nat → StepEnv) (i : Nat) (s : String)
    (rest : List String) (h : (processStep (env i) i s).next = Next.cont) :
    stepLoop env i (s :: rest) =
      ⟨(processStep (env i) i s).outcomes ++
         (stepLoop env (i + 1) rest).outcomes,
       (processStep (env i) i s).errs ++ (stepLoop env (i + 1) rest).errs,
       callsOf (processStep (env i) i s).resolverCalled i ++
         (stepLoop env (i + 1) rest).resolverCalls,
       callsOf (processStep (env i) i s).execCalled i ++
         (stepLoop env (i + 1) rest).execCalls,
       (stepLoop env (i + 1) rest).term⟩ := by
  simp only [stepLoop, h]

theorem stepLoop_cons_halt (env : Nat → StepEnv) (i : Nat) (s : String)
    (rest : List String) (h : (processStep (env i) i s).next = Next.halt) :
    stepLoop env i (s :: rest) =
      ⟨(processStep (env i) i s).outcomes, (processStep (env i) i s).errs,
       callsOf (processStep (env i) i s).resolverCalled i,
       callsOf (processStep (env i) i s).execCalled i, .halted i⟩ := by
  simp only [stepLoop, h]

theorem stepLoop_cons_fatal (env : Nat → StepEnv) (i : Nat) (s : String)
    (rest : List String) (m : String)
    (h : (processStep (env i) i s).next = Next.fatalExn m) :
    stepLoop env i (s :: rest) =
      ⟨(processStep (env i) i s).outcomes, (processStep (env i) i s).errs,
       callsOf (processStep (env i) i s).resolverCalled i,
       callsOf (processStep (env i) i s).execCalled i, .fatal m⟩ := by
  simp only [stepLoop, h]

theorem stepLoop_calls_ge (env : Nat → StepEnv) :
    ∀ (L : List String) (i : Nat),
      (∀ j ∈ (stepLoop env i L).resolverCalls, i ≤ j) ∧
      (∀ j ∈ (stepLoop env i L).execCalls, i ≤ j) := by
  intro L
  induction L with
  | nil =>
    intro i
    exact ⟨fun j hj => by simp [stepLoop] at hj,
           fun j hj => by simp [stepLoop] at hj⟩
  | cons s rest ih =>
    intro i
    cases hn : (processStep (env i) i s).next with
    | cont =>
      rw [stepLoop_cons_cont env i s rest hn]
      constructor <;> intro j hj <;>
        rcases List.mem_append.mp hj with hj | hj
      · exact (callsOf_mem hj).2 ▸ Nat.le_refl i
      · exact Nat.le_of_succ_le ((ih (i + 1)).1 j hj)
      · exact (callsOf_mem hj).2 ▸ Nat.le_refl i
      · exact Nat.le_of_succ_le ((ih (i + 1)).2 j hj)
    | halt =>
      rw [stepLoop_cons_halt env i s rest hn]
      exact ⟨fun j hj => (callsOf_mem hj).2 ▸ Nat.le_refl i,
             fun j hj => (callsOf_mem hj).2 ▸ Nat.le_refl i⟩
    | fatalExn m =>
      rw [stepLoop_cons_fatal env i s rest m hn]
      exact ⟨fun j hj => (callsOf_mem hj).2 ▸ Nat.le_refl i,
             fun j hj => (callsOf_mem hj).2 ▸ Nat.le_refl i⟩

theorem stepLoop_halted (env : Nat → StepEnv) :
    ∀ (L : List String) (i N : Nat),
      (stepLoop env i L).term = .halted N →
      i ≤ N ∧ (stepLoop env i L).outcomes.length + i ≤ N + 1 ∧
      (∀ j ∈ (stepLoop env i L).resolverCalls, j ≤ N) ∧
      (∀ j ∈ (stepLoop env i L).execCalls, j ≤ N) := by
  intro L
  induction L with
  | nil => intro i N h; simp [stepLoop] at h
  | cons s rest ih =>
    intro i N
    cases hn : (processStep (env i) i s).next with
    | cont =>
      rw [stepLoop_cons_cont env i s rest hn]
      intro hterm
      obtain ⟨h1, h2, h3, h4⟩ := ih (i + 1) N hterm
      have hlen := processStep_outcomes_len (env i) i s
      refine ⟨by omega, ?_, ?_, ?_⟩
      · rw [List.length_append]; omega
      · intro j hj
        rcases List.mem_append.mp hj with hj | hj
        · rw [(callsOf_mem hj).2]; omega
        · exact h3 j hj
      · intro j hj
        rcases List.mem_append.mp hj with hj | hj
        · rw [(callsOf_mem hj).2]; omega
        · exact h4 j hj
    | halt =>
      rw [stepLoop_cons_halt env i s rest hn]
      intro hterm
      dsimp only at hterm ⊢
      have hN : N = i := (RTerm.halted.injEq _ _ ▸ hterm).symm
      have hlen := processStep_outcomes_len (env i) i s
      subst hN
      refine ⟨Nat.le_refl _, by omega, ?_, ?_⟩
      · intro j hj; rw [(callsOf_mem hj).2]
      · intro j hj; rw [(callsOf_mem hj).2]
    | fatalExn m =>
      rw [stepLoop_cons_fatal env i s rest m hn]
      intro hterm
      simp at hterm

theorem stepLoop_exec_exn (env : Nat → StepEnv) :
    ∀ (L : List String) (i N : Nat) (m : String),
      N ∈ (stepLoop env i L).execCalls → (env N).exec = .exn m →
      (stepLoop env i L).term = .halted N ∧
      (∃ o ∈ (stepLoop env i L).outcomes,
        o.success = false ∧ o.error = some m) ∧
      (∃ err ∈ (stepLoop env i L).errs,
        strStartsWith ("STOPPED at step " ++ Nat.repr N) err = true) := by
  intro L
  induction L with
  | nil => intro i N m h; simp [stepLoop] at h
  | cons s rest ih =>
    intro i N m hmem hx
    cases hn : (processStep (env i) i s).next with
    | cont =>
      rw [stepLoop_cons_cont env i s rest hn] at hmem ⊢
      rcases List.mem_append.mp hmem with hmem | hmem
      · obtain ⟨hcall, hNi⟩ := callsOf_mem hmem
        subst hNi
        have heq := processStep_execCalled_eq (env N) N s hcall
        rw [heq] at hcall
        obtain ⟨a, hra, hka⟩ :=
          resolvePhase_execCalled (env N).resolve (env N).exec N s hcall
        have : processStep (env N) N s = haltStep s N a m := by
          rw [heq, hra, hx]
          exact resolvePhase_exn N s hka
        rw [this] at hn
        simp [haltStep] at hn
      · obtain ⟨h1, h2, h3⟩ := ih (i + 1) N m hmem hx
        refine ⟨h1, ?_, ?_⟩
        · obtain ⟨o, ho, hos⟩ := h2
          exact ⟨o, List.mem_append_right _ ho, hos⟩
        · obtain ⟨err, herr, hsw⟩ := h3
          exact ⟨err, List.mem_append_right _ herr, hsw⟩
    | halt =>
      rw [stepLoop_cons_halt env i s rest hn] at hmem ⊢
      obtain ⟨hcall, hNi⟩ := callsOf_mem hmem
      subst hNi
      have heq := processStep_execCalled_eq (env N) N s hcall
      rw [heq] at hcall
      obtain ⟨a, hra, hka⟩ :=
        resolvePhase_execCalled (env N).resolve (env N).exec N s hcall
      have hps : processStep (env N) N s = haltStep s N a m := by
        rw [heq, hra, hx]
        exact resolvePhase_exn N s hka
      rw [hps]
      refine ⟨rfl,
        ⟨⟨s, a.kind, false, some a.selector, none, some m, none⟩,
          by simp [haltStep], rfl, rfl⟩, ?_⟩
      refine ⟨"STOPPED at step " ++ Nat.repr N ++ ": " ++
        ("Failed to execute " ++ a.kind ++ " on " ++ a.selector ++ ": " ++ m),
        by simp [haltStep], ?_⟩
      rw [String.append_assoc, String.append_assoc]
      rw [← String.append_assoc "STOPPED at step " (Nat.repr N)]
      exact strStartsWith_append _ _
    | fatalExn m2 =>
      rw [stepLoop_cons_fatal env i s rest m2 hn] at hmem
      obtain ⟨hcall, hNi⟩ := callsOf_mem hmem
      rw [processStep_fatal (env i) i s m2 hn] at hcall
      exact absurd hcall Bool.false_ne_true

theorem stepLoop_steps_sublist (env : Nat → StepEnv) :
    ∀ (L : List String) (i : Nat),
      ((stepLoop env i L).outcomes.map Outcome.step).Sublist L ∧
      (∀ N, (stepLoop env i L).term = .halted N →
        ((stepLoop env i L).outcomes.map Outcome.step).Sublist
          (L.take (N + 1 - i))) := by
  intro L
  induction L with
  | nil =>
    intro i
    exact ⟨by simp [stepLoop], fun N h => by simp [stepLoop] at h⟩
  | cons s rest ih =>
    intro i
    cases hn : (processStep (env i) i s).next with
    | cont =>
      rw [stepLoop_cons_cont env i s rest hn]
      constructor
      · rw [List.map_append]
        exact List.Sublist.append (processStep_steps_sublist (env i) i s)
          ((ih (i + 1)).1)
      · intro N hterm
        have hiN := (stepLoop_halted env rest (i + 1) N hterm).1
        have h1 : N + 1 - i = (N - i) + 1 := by omega
        have h2 : N + 1 - (i + 1) = N - i := by omega
        rw [h1, List.take_succ_cons, List.map_append]
        have htail := (ih (i + 1)).2 N hterm
        rw [h2] at htail
        exact List.Sublist.append (processStep_steps_sublist (env i) i s) htail
    | halt =>
      rw [stepLoop_cons_halt env i s rest hn]
      have hhead := processStep_steps_sublist (env i) i s
      constructor
      · exact hhead.trans ((List.singleton_sublist.mpr (by simp)))
      · intro N hterm
        have hN : N = i := (RTerm.halted.injEq _ _ ▸ hterm).symm
        subst hN
        have h1 : N + 1 - N = 1 := by omega
        rw [h1]
        exact hhead.trans (by simp [List.take_succ_cons])
    | fatalExn m =>
      rw [stepLoop_cons_fatal env i s rest m hn]
      have hhead := processStep_steps_sublist (env i) i s
      constructor
      · exact hhead.trans ((List.singleton_sublist.mpr (by simp)))
      · intro N hterm; simp at hterm

theorem stepLoop_errs_not_fatal (env : Nat → StepEnv) :
    ∀ (L : List String) (i : Nat),
      ∀ err ∈ (stepLoop env i L).errs,
        strStartsWith "Fatal error: " err = false := by
  intro L
  induction L with
  | nil => intro i err herr; simp [stepLoop] at herr
  | cons s rest ih =>
    intro i err herr
    cases hn : (processStep (env i) i s).next with
    | cont =>
      rw [stepLoop_cons_cont env i s rest hn] at herr
      rcases List.mem_append.mp herr with herr | herr
      · exact processStep_errs_not_fatal (env i) i s err herr
      · exact ih (i + 1) err herr
    | halt =>
      rw [stepLoop_cons_halt env i s rest hn] at herr
      exact processStep_errs_not_fatal (env i) i s err herr
    | fatalExn m =>
      rw [stepLoop_cons_fatal env i s rest m hn] at herr
      exact processStep_errs_not_fatal (env i) i s err herr

/-! ## Unfolding the run entry point -/

theorem run_start_some (renv : RunEnv) (url instructions m : String)
    (hs : renv.start = some m) :
    execute_actions_intelligently renv url instructions =
      ⟨[], ["Fatal error: " ++ m], url, [], [], .fatal m⟩ := by
  simp only [execute_actions_intelligently, hs]

theorem run_completed (renv : RunEnv) (url instructions : String)
    (hs : renv.start = none)
    (ht : (stepLoop renv.steps 1 (parseSteps instructions)).term =
      .completed) :
    execute_actions_intelligently renv url instructions =
      ⟨(stepLoop renv.steps 1 (parseSteps instructions)).outcomes,
       (stepLoop renv.steps 1 (parseSteps instructions)).errs,
       renv.finalUrl,
       (stepLoop renv.steps 1 (parseSteps instructions)).resolverCalls,
       (stepLoop renv.steps 1 (parseSteps instructions)).execCalls,
       .completed⟩ := by
  simp only [execute_actions_intelligently, hs, ht]

theorem run_halted (renv : RunEnv) (url instructions : String) (n : Nat)
    (hs : renv.start = none)
    (ht : (stepLoop renv.steps 1 (parseSteps instructions)).term =
      .halted n) :
    execute_actions_intelligently renv url instructions =
      ⟨(stepLoop renv.steps 1 (parseSteps instructions)).outcomes,
       (stepLoop renv.steps 1 (parseSteps instructions)).errs,
       renv.finalUrl,
       (stepLoop renv.steps 1 (parseSteps instructions)).resolverCalls,
       (stepLoop renv.steps 1 (parseSteps instructions)).execCalls,
       .halted n⟩ := by
  simp only [execute_actions_intelligently, hs, ht]

theorem run_fatal (renv : RunEnv) (url instructions m : String)
    (hs : renv.start = none)
    (ht : (stepLoop renv.steps 1 (parseSteps instructions)).term =
      .fatal m) :
    execute_actions_intelligently renv url instructions =
      ⟨(stepLoop renv.steps 1 (parseSteps instructions)).outcomes,
       (stepLoop renv.steps 1 (parseSteps instructions)).errs ++
         ["Fatal error: " ++ m],
       url,
       (stepLoop renv.steps 1 (parseSteps instructions)).resolverCalls,
       (stepLoop renv.steps 1 (parseSteps instructions)).execCalls,
       .fatal m⟩ := by
  simp only [execute_actions_intelligently, hs, ht]

theorem containsSub_of_isPrefixOf {p l : List Char}
    (h : p.isPrefixOf l = true) : containsSub p l = true := by
  cases l with
  | nil =>
    cases p with
    | nil => rfl
    | cons a as => simp [List.isPrefixOf] at h
  | cons c rest =>
    unfold containsSub
    rw [h]
    rfl

theorem strContains_of_sw {p s : String} (h : strStartsWith p s = true) :
    strContains s p = true :=
  containsSub_of_isPrefixOf h

/-! ## C1: halt on exception during action execution -/

/-- C1 (confirmed).  If executing the resolved click/hover action of step
`N` raises (rather than returning a Boolean), the run records that step's
error in its outcome, appends an error entry containing
`STOPPED at step N`, and halts: the loop terminates at `N`, no step after
`N` is resolved or executed, and `steps_executed` has length at most `N`. -/
theorem C1_halt_on_exception (renv : RunEnv) (url instructions : String)
    (N : Nat) (m : String)
    (hmem : N ∈ (execute_actions_intelligently renv url instructions).execCalls)
    (hx : (renv.steps N).exec = .exn m) :
    (∃ err ∈ (execute_actions_intelligently renv url instructions).errors,
      strContains err ("STOPPED at step " ++ Nat.repr N) = true) ∧
    (∃ o ∈ (execute_actions_intelligently renv url
        instructions).actions_executed,
      o.success = false ∧ o.error = some m) ∧
    (execute_actions_intelligently renv url
      instructions).actions_executed.length ≤ N ∧
    (∀ j, N < j →
      j ∉ (execute_actions_intelligently renv url instructions).execCalls ∧
      j ∉ (execute_actions_intelligently renv url
        instructions).resolverCalls) ∧
    (execute_actions_intelligently renv url instructions).term =
      .halted N := by
  cases hs : renv.start with
  | some m2 =>
    rw [run_start_some renv url instructions m2 hs] at hmem
    simp at hmem
  | none =>
    have hmem2 :
        N ∈ (stepLoop renv.steps 1 (parseSteps instructions)).execCalls := by
      cases ht : (stepLoop renv.steps 1 (parseSteps instructions)).term with
      | completed =>
        rw [run_completed renv url instructions hs ht] at hmem; exact hmem
      | halted n =>
        rw [run_halted renv url instructions n hs ht] at hmem; exact hmem
      | fatal m2 =>
        rw [run_fatal renv url instructions m2 hs ht] at hmem; exact hmem
    obtain ⟨hterm, houts, herrs⟩ :=
      stepLoop_exec_exn renv.steps (parseSteps instructions) 1 N m hmem2 hx
    obtain ⟨h1N, hlen, hres, hexec⟩ :=
      stepLoop_halted renv.steps (parseSteps instructions) 1 N hterm
    rw [run_halted renv url instructions N hs hterm]
    dsimp only
    refine ⟨?_, houts, by omega, ?_, rfl⟩
    · obtain ⟨err, herrm, hsw⟩ := herrs
      exact ⟨err, herrm, strContains_of_sw hsw⟩
    · intro j hj
      constructor
      · intro hmem3
        exact absurd (hexec j hmem3) (by omega)
      · intro hmem3
        exact absurd (hres j hmem3) (by omega)

/-- Witness for C1: a 3-step run whose step 2 click mechanism raises
`boom`; the run halts at step 2 with a `STOPPED at step 2` error, at most
2 outcomes, and step 3 never resolved or executed. -/
theorem C1_halt_on_exception_witness :
    2 ∈ (execute_actions_intelligently
      ⟨none,
       fun i => if i = 2 then
         ⟨true, "h", true, .act ⟨"click", "#beta", false⟩, .exn "boom"⟩
       else ⟨true, "h", true, .act ⟨"click", "#alpha", false⟩, .ret true⟩,
       "http://final"⟩
      "http://u" "1. Click Alpha\n2. Click Beta\n3. Click Gamma").execCalls ∧
    ((∃ err ∈ (execute_actions_intelligently
        ⟨none,
         fun i => if i = 2 then
           ⟨true, "h", true, .act ⟨"click", "#beta", false⟩, .exn "boom"⟩
         else ⟨true, "h", true, .act ⟨"click", "#alpha", false⟩, .ret true⟩,
         "http://final"⟩
        "http://u" "1. Click Alpha\n2. Click Beta\n3. Click Gamma").errors,
      strContains err ("STOPPED at step " ++ Nat.repr 2) = true) ∧
    (∃ o ∈ (execute_actions_intelligently
        ⟨none,
         fun i => if i = 2 then
           ⟨true, "h", true, .act ⟨"click", "#beta", false⟩, .exn "boom"⟩
         else ⟨true, "h", true, .act ⟨"click", "#alpha", false⟩, .ret true⟩,
         "http://final"⟩
        "http://u"
        "1. Click Alpha\n2. Click Beta\n3. Click Gamma").actions_executed,
      o.success = false ∧ o.error = some "boom") ∧
    (execute_actions_intelligently
        ⟨none,
         fun i => if i = 2 then
           ⟨true, "h", true, .act ⟨"click", "#beta", false⟩, .exn "boom"⟩
         else ⟨true, "h", true, .act ⟨"click", "#alpha", false⟩, .ret true⟩,
         "http://final"⟩
        "http://u"
        "1. Click Alpha\n2. Click Beta\n3. Click Gamma").actions_executed.length
      ≤ 2 ∧
    (∀ j, 2 < j →
      j ∉ (execute_actions_intelligently
        ⟨none,
         fun i => if i = 2 then
           ⟨true, "h", true, .act ⟨"click", "#beta", false⟩, .exn "boom"⟩
         else ⟨true, "h", true, .act ⟨"click", "#alpha", false⟩, .ret true⟩,
         "http://final"⟩
        "http://u" "1. Click Alpha\n2. Click Beta\n3. Click Gamma").execCalls ∧
      j ∉ (execute_actions_intelligently
        ⟨none,
         fun i => if i = 2 then
           ⟨true, "h", true, .act ⟨"click", "#beta", false⟩, .exn "boom"⟩
         else ⟨true, "h", true, .act ⟨"click", "#alpha", false⟩, .ret true⟩,
         "http://final"⟩
        "http://u"
        "1. Click Alpha\n2. Click Beta\n3. Click Gamma").resolverCalls) ∧
    (execute_actions_intelligently
        ⟨none,
         fun i => if i = 2 then
           ⟨true, "h", true, .act ⟨"click", "#beta", false⟩, .exn "boom"⟩
         else ⟨true, "h", true, .act ⟨"click", "#alpha", false⟩, .ret true⟩,
         "http://final"⟩
        "http://u" "1. Click Alpha\n2. Click Beta\n3. Click Gamma").term =
      .halted 2) :=
  ⟨by decide,
   C1_halt_on_exception _ _ _ 2 "boom" (by decide) (by decide)⟩

/-! ## C3: popup pre-check skip -/

/-- C3 (confirmed).  A popup-control step (lowercased text contains one of
cancel/close/continue/confirm/ok/dismiss) that is not pure-observation is,
when no popup is visible, recorded as a `skip` outcome with `success=true`,
and neither the element resolver nor the language model is invoked for it
(`resolverCalled = false`), nor any action executed. -/
theorem C3_popup_precheck_skip (e : StepEnv) (i : Nat) (s : String)
    (h1 : is_popup_button_step s = true)
    (h2 : pure_observation s = false)
    (h3 : e.popupVisible = false) :
    processStep e i s = ⟨[skipOutcome s], [], false, false, .cont⟩ :=
  processStep_skip e i h1 h2 h3

/-- Witness for C3: the step `Click the Cancel button` with no popup
visible is recorded as a successful skip without a resolver call. -/
theorem C3_popup_precheck_skip_witness :
    is_popup_button_step "Click the Cancel button" = true ∧
    pure_observation "Click the Cancel button" = false ∧
    processStep ⟨false, "", true, .noAction, .ret true⟩ 1
        "Click the Cancel button" =
      ⟨[skipOutcome "Click the Cancel button"], [], false, false, .cont⟩ :=
  ⟨by decide, by decide,
   C3_popup_precheck_skip ⟨false, "", true, .noAction, .ret true⟩ 1
     "Click the Cancel button" (by decide) (by decide) rfl⟩

/-! ## C4: pure-observation classification -/

/-- C4 (confirmed).  The classifier is a pure function of the step text: a
step containing an observation phrase and no action verb
(click/press/tap/select) is pure-observation and is recorded as a no-op
success (`action="observation"`) without any model call or browser action;
`Verify the popup is visible` is pure-observation while
`Click Cancel when the popup appears` is not. -/
theorem C4_observation_classifier :
    (∀ (e : StepEnv) (i : Nat) (s : String),
      is_observation_step s = true → has_action_word s = false →
      processStep e i s = ⟨[obsOutcome s], [], false, false, .cont⟩) ∧
    pure_observation "Verify the popup is visible" = true ∧
    pure_observation "Click Cancel when the popup appears" = false :=
  ⟨fun e i s h1 h2 => processStep_obs e i h1 h2, by decide, by decide⟩

/-- Witness for C4: `Verify the popup is visible` is processed as a no-op
observation outcome with no resolver call and no execution. -/
theorem C4_observation_classifier_witness :
    is_observation_step "Verify the popup is visible" = true ∧
    has_action_word "Verify the popup is visible" = false ∧
    processStep ⟨true, "", true, .noAction, .ret true⟩ 1
        "Verify the popup is visible" =
      ⟨[obsOutcome "Verify the popup is visible"], [], false, false,
       .cont⟩ :=
  ⟨by decide, by decide,
   C4_observation_classifier.1 ⟨true, "", true, .noAction, .ret true⟩ 1
     "Verify the popup is visible" (by decide) (by decide)⟩

/-! ## C5: one outcome per processed step (corrected)

The claim "exactly one outcome entry is appended to `steps_executed` per
step processed" fails on the code: when `page.content()` raises, the source
(api.py 632-635) appends only an error entry and `continue`s, so the step
is processed but contributes no outcome; an action kind other than
click/hover likewise appends nothing.  The counterexample below is a
completed run whose single parsed step produced zero outcomes. -/

/-- Counterexample for C5: a run over the single step `Inspect the banner`
whose page-content capture raises.  The run completes (the step was
processed), records the `Step 1: Failed to get page content` error, yet
`steps_executed` is empty — not "exactly one outcome per step". -/
theorem C5_counterexample :
    (parseSteps "Inspect the banner").length = 1 ∧
    (execute_actions_intelligently
      ⟨none, fun _ => ⟨true, "", false, .noAction, .ret true⟩, "fu"⟩
      "u" "Inspect the banner").term = .completed ∧
    (execute_actions_intelligently
      ⟨none, fun _ => ⟨true, "", false, .noAction, .ret true⟩, "fu"⟩
      "u" "Inspect the banner").actions_executed = [] ∧
    (execute_actions_intelligently
      ⟨none, fun _ => ⟨true, "", false, .noAction, .ret true⟩, "fu"⟩
      "u" "Inspect the banner").errors =
      ["Step 1: Failed to get page content"] := by
  refine ⟨by decide, by decide, by decide, by decide⟩

/-- C5 as amended (proved).  At most one outcome is appended per processed
step (a failed page-content capture or an unrecognised action kind appends
none), outcomes appear in step order — the sequence of their `step` fields
is an ordered subsequence of the parsed steps — and a run halted at step
`N` records outcomes only for steps among the first `N`. -/
theorem C5_amended (renv : RunEnv) (url instructions : String) :
    (((execute_actions_intelligently renv url
        instructions).actions_executed.map Outcome.step).Sublist
      (parseSteps instructions)) ∧
    (∀ N, (execute_actions_intelligently renv url instructions).term =
        .halted N →
      ((execute_actions_intelligently renv url
          instructions).actions_executed.map Outcome.step).Sublist
        ((parseSteps instructions).take N)) := by
  cases hs : renv.start with
  | some m =>
    rw [run_start_some renv url instructions m hs]
    exact ⟨List.nil_sublist _, fun N h => by simp at h⟩
  | none =>
    have hmain := stepLoop_steps_sublist renv.steps (parseSteps instructions) 1
    cases ht : (stepLoop renv.steps 1 (parseSteps instructions)).term with
    | completed =>
      rw [run_completed renv url instructions hs ht]
      exact ⟨hmain.1, fun N h => by simp at h⟩
    | halted n =>
      rw [run_halted renv url instructions n hs ht]
      dsimp only
      refine ⟨hmain.1, fun N h => ?_⟩
      have hNn : n = N := RTerm.halted.inj h
      subst hNn
      have htake := hmain.2 n ht
      have : n + 1 - 1 = n := by omega
      rw [this] at htake
      exact htake
    | fatal m =>
      rw [run_fatal renv url instructions m hs ht]
      exact ⟨hmain.1, fun N h => by simp at h⟩

/-- Witness for C5 as amended: a 2-step run that halts at step 1; the
recorded steps form a subsequence of the first parsed step. -/
theorem C5_amended_witness :
    (execute_actions_intelligently
      ⟨none, fun _ => ⟨true, "", true, .act ⟨"click", "#one", false⟩,
        .exn "crash"⟩, "fu"⟩
      "u" "1. Click One\n2. Click Two").term = .halted 1 ∧
    ((execute_actions_intelligently
        ⟨none, fun _ => ⟨true, "", true, .act ⟨"click", "#one", false⟩,
          .exn "crash"⟩, "fu"⟩
        "u" "1. Click One\n2. Click Two").actions_executed.map
      Outcome.step).Sublist ((parseSteps "1. Click One\n2. Click Two").take 1) :=
  ⟨by decide,
   (C5_amended
     ⟨none, fun _ => ⟨true, "", true, .act ⟨"click", "#one", false⟩,
       .exn "crash"⟩, "fu"⟩
     "u" "1. Click One\n2. Click Two").2 1 (by decide)⟩

/-! ## C9: fatal errors are caught and recorded -/

/-- C9 (confirmed).  When a fatal exception escapes the step loop
(including a failure to start the browser session), the run's error list
ends with a single entry beginning `Fatal error: ` — no earlier entry
carries that prefix — and the accumulated partial results are returned:
`execute_actions_intelligently` is a total function into `RunResult`, so
the caller always receives a result structure, never an exception. -/
theorem C9_fatal_error (renv : RunEnv) (url instructions m : String)
    (h : (execute_actions_intelligently renv url instructions).term =
      .fatal m) :
    ∃ pre, (execute_actions_intelligently renv url instructions).errors =
      pre ++ ["Fatal error: " ++ m] ∧
      ∀ e ∈ pre, strStartsWith "Fatal error: " e = false := by
  cases hs : renv.start with
  | some m2 =>
    rw [run_start_some renv url instructions m2 hs] at h ⊢
    dsimp only at h
    have hm : m2 = m := RTerm.fatal.inj h
    subst hm
    exact ⟨[], rfl, by simp⟩
  | none =>
    cases ht : (stepLoop renv.steps 1 (parseSteps instructions)).term with
    | completed =>
      rw [run_completed renv url instructions hs ht] at h
      simp at h
    | halted n =>
      rw [run_halted renv url instructions n hs ht] at h
      simp at h
    | fatal m2 =>
      rw [run_fatal renv url instructions m2 hs ht] at h ⊢
      dsimp only at h
      have hm : m2 = m := RTerm.fatal.inj h
      subst hm
      exact ⟨(stepLoop renv.steps 1 (parseSteps instructions)).errs, rfl,
        stepLoop_errs_not_fatal renv.steps (parseSteps instructions) 1⟩

/-- Witness for C9: a run whose browser session fails to start returns a
result whose error list is exactly the fatal entry. -/
theorem C9_fatal_error_witness :
    (execute_actions_intelligently
      ⟨some "browser launch failed",
       fun _ => ⟨false, "", true, .noAction, .ret true⟩, "fu"⟩
      "u" "1. Click Alpha").term = .fatal "browser launch failed" ∧
    ∃ pre, (execute_actions_intelligently
      ⟨some "browser launch failed",
       fun _ => ⟨false, "", true, .noAction, .ret true⟩, "fu"⟩
      "u" "1. Click Alpha").errors =
      pre ++ ["Fatal error: " ++ "browser launch failed"] ∧
      ∀ e ∈ pre, strStartsWith "Fatal error: " e = false :=
  ⟨by decide,
   C9_fatal_error
     ⟨some "browser launch failed",
      fun _ => ⟨false, "", true, .noAction, .ret true⟩, "fu"⟩
     "u" "1. Click Alpha" "browser launch failed" (by decide)⟩

/-! ## C10: keyword matching is plain substring containment -/

/-- C10 (confirmed).  Keyword classification is substring containment on
the lowercased text with no word-boundary check: any step whose lowercased
text contains `ok` — also inside a longer word, as in `Look at the header`
or `Open the booking page` — is classified popup-related and popup-control,
and consequently, when no popup is visible, those steps are recorded as
skipped successes with no resolver call and no browser action. -/
theorem C10_substring_classification :
    (∀ s : String, strContains (lowerStr s) "ok" = true →
      is_popup_step s = true ∧ is_popup_button_step s = true) ∧
    strContains (lowerStr "Look at the header") "ok" = true ∧
    strContains (lowerStr "Open the booking page") "ok" = true ∧
    (∀ (e : StepEnv) (i : Nat), e.popupVisible = false →
      processStep e i "Look at the header" =
        ⟨[skipOutcome "Look at the header"], [], false, false, .cont⟩ ∧
      processStep e i "Open the booking page" =
        ⟨[skipOutcome "Open the booking page"], [], false, false, .cont⟩) := by
  refine ⟨?_, by decide, by decide, ?_⟩
  · intro s h
    constructor
    · unfold is_popup_step containsAny
      rw [List.any_eq_true]
      exact ⟨"ok", by decide, h⟩
    · unfold is_popup_button_step containsAny
      rw [List.any_eq_true]
      exact ⟨"ok", by decide, h⟩
  · intro e i hv
    exact ⟨processStep_skip e i (by decide) (by decide) hv,
           processStep_skip e i (by decide) (by decide) hv⟩

/-- Witness for C10: with no popup visible, `Look at the header` and
`Open the booking page` are both recorded as skipped successes. -/
theorem C10_substring_classification_witness :
    (⟨false, "", true, .noAction, .ret true⟩ : StepEnv).popupVisible =
      false ∧
    processStep ⟨false, "", true, .noAction, .ret true⟩ 3
        "Look at the header" =
      ⟨[skipOutcome "Look at the header"], [], false, false, .cont⟩ ∧
    processStep ⟨false, "", true, .noAction, .ret true⟩ 3
        "Open the booking page" =
      ⟨[skipOutcome "Open the booking page"], [], false, false, .cont⟩ :=
  ⟨rfl,
   (C10_substring_classification.2.2.2
     ⟨false, "", true, .noAction, .ret true⟩ 3 rfl).1,
   (C10_substring_classification.2.2.2
     ⟨false, "", true, .noAction, .ret true⟩ 3 rfl).2⟩

/-! ## C2: four click strategies, fixed order, no propagated exception -/

/-- C2 (confirmed).  `execute_click_action` tries exactly the four
strategies of the fixed table — standard click and forced click requiring
visibility, then script-dispatched and event-dispatch clicks bypassing
visibility — in order: it returns `true` at the first succeeding strategy
having attempted exactly the strategies up to it, and when all four fail
(including by raising inside an attempt) it returns `false` after
attempting all four, propagating no exception (it is a total function of
the attempt environment). -/
theorem C2_click_fallback :
    clickStrategies.map Prod.snd = [true, true, false, false] ∧
    clickStrategies.map Prod.fst =
      ["Standard click (visible)", "Force click (visible)",
       "JS click (bypass visibility)", "Dispatch click (bypass visibility)"] ∧
    (∀ env : Nat → AttemptEnv, (∀ j, j < 4 → succAt env j = false) →
      execute_click_action env = (false, [0, 1, 2, 3])) ∧
    (∀ (env : Nat → AttemptEnv) (k : Nat), succAt env k = true →
      (∀ j, j < k → succAt env j = false) →
      execute_click_action env = (true, List.range (k + 1))) := by
  refine ⟨rfl, rfl, ?_, ?_⟩
  · intro env h
    have h0 : strategySucceeds true (env 0) = false := h 0 (by omega)
    have h1 : strategySucceeds true (env 1) = false := h 1 (by omega)
    have h2 : strategySucceeds false (env 2) = false := h 2 (by omega)
    have h3 : strategySucceeds false (env 3) = false := h 3 (by omega)
    unfold execute_click_action clickStrategies
    simp [clickLoop, h0, h1, h2, h3]
  · intro env k hk hlt
    have hk4 : k < 4 := by
      by_contra hge
      rw [Nat.not_lt] at hge
      have hnone : clickStrategies[k]? = none := by
        apply List.getElem?_eq_none
        simpa [clickStrategies] using hge
      unfold succAt at hk
      rw [hnone] at hk
      exact absurd hk (by simp)
    interval_cases k
    · have hs0 : strategySucceeds true (env 0) = true := hk
      unfold execute_click_action clickStrategies
      simp [clickLoop, hs0, List.range_succ]
    · have h0 : strategySucceeds true (env 0) = false := hlt 0 (by omega)
      have hs1 : strategySucceeds true (env 1) = true := hk
      unfold execute_click_action clickStrategies
      simp [clickLoop, h0, hs1, List.range_succ]
    · have h0 : strategySucceeds true (env 0) = false := hlt 0 (by omega)
      have h1 : strategySucceeds true (env 1) = false := hlt 1 (by omega)
      have hs2 : strategySucceeds false (env 2) = true := hk
      unfold execute_click_action clickStrategies
      simp [clickLoop, h0, h1, hs2, List.range_succ]
    · have h0 : strategySucceeds true (env 0) = false := hlt 0 (by omega)
      have h1 : strategySucceeds true (env 1) = false := hlt 1 (by omega)
      have h2 : strategySucceeds false (env 2) = false := hlt 2 (by omega)
      have hs3 : strategySucceeds false (env 3) = true := hk
      unfold execute_click_action clickStrategies
      simp [clickLoop, h0, h1, h2, hs3, List.range_succ]

/-- Witness for C2: under an environment where every attempt raises, the
click returns `false` after attempting all four strategies; under an
environment where the element never becomes visible but attaches, the two
visibility-requiring strategies fail and the third (script-dispatched)
strategy succeeds. -/
theorem C2_click_fallback_witness :
    execute_click_action (fun _ => ⟨false, false, some "boom"⟩) =
      (false, [0, 1, 2, 3]) ∧
    execute_click_action (fun _ => ⟨true, false, none⟩) =
      (true, [0, 1, 2]) :=
  ⟨C2_click_fallback.2.2.1 (fun _ => ⟨false, false, some "boom"⟩)
    (by decide),
   C2_click_fallback.2.2.2 (fun _ => ⟨true, false, none⟩) 2 (by decide)
    (by decide)⟩

/-! ## Order lemmas for the normalization sort -/

theorem charLeb_total : ∀ (a b : List Char),
    charLeb a b = true ∨ charLeb b a = true := by
  intro a
  induction a with
  | nil => intro b; exact Or.inl rfl
  | cons x xs ih =>
    intro b
    cases b with
    | nil => exact Or.inr rfl
    | cons y ys =>
      by_cases h1 : x.toNat < y.toNat
      · left; unfold charLeb; rw [if_pos h1]
      · by_cases h2 : y.toNat < x.toNat
        · right; unfold charLeb; rw [if_pos h2]
        · rcases ih ys with h | h
          · left; unfold charLeb; rw [if_neg h1, if_neg h2]; exact h
          · right; unfold charLeb; rw [if_neg h2, if_neg h1]; exact h

theorem charLeb_antisymm : ∀ (a b : List Char),
    charLeb a b = true → charLeb b a = true → a = b := by
  intro a
  induction a with
  | nil =>
    intro b _ hba
    cases b with
    | nil => rfl
    | cons y ys => simp [charLeb] at hba
  | cons x xs ih =>
    intro b hab hba
    cases b with
    | nil => simp [charLeb] at hab
    | cons y ys =>
      unfold charLeb at hab hba
      by_cases h1 : x.toNat < y.toNat
      · rw [if_neg (by omega : ¬y.toNat < x.toNat), if_pos h1] at hba
        exact absurd hba (by simp)
      · by_cases h2 : y.toNat < x.toNat
        · rw [if_neg h1, if_pos h2] at hab
          exact absurd hab (by simp)
        · rw [if_neg h1, if_neg h2] at hab
          rw [if_neg h2, if_neg h1] at hba
          have hxy : x = y := charToNat_inj (by omega)
          rw [hxy, ih ys hab hba]

theorem charLeb_trans : ∀ (a b c : List Char),
    charLeb a b = true → charLeb b c = true → charLeb a c = true := by
  intro a
  induction a with
  | nil => intro b c _ _; rfl
  | cons x xs ih =>
    intro b c hab hbc
    cases b with
    | nil => simp [charLeb] at hab
    | cons y ys =>
      cases c with
      | nil => simp [charLeb] at hbc
      | cons z zs =>
        unfold charLeb at hab hbc ⊢
        by_cases h1 : x.toNat < y.toNat
        · by_cases h3 : y.toNat < z.toNat
          · rw [if_pos (by omega : x.toNat < z.toNat)]
          · by_cases h4 : z.toNat < y.toNat
            · rw [if_neg h3, if_pos h4] at hbc
              exact absurd hbc (by simp)
            · rw [if_pos (by omega : x.toNat < z.toNat)]
        · by_cases h2 : y.toNat < x.toNat
          · rw [if_neg h1, if_pos h2] at hab
            exact absurd hab (by simp)
          · by_cases h3 : y.toNat < z.toNat
            · rw [if_pos (by omega : x.toNat < z.toNat)]
            · by_cases h4 : z.toNat < y.toNat
              · rw [if_neg h3, if_pos h4] at hbc
                exact absurd hbc (by simp)
              · rw [if_neg h1, if_neg h2] at hab
                rw [if_neg h3, if_neg h4] at hbc
                rw [if_neg (by omega : ¬x.toNat < z.toNat),
                  if_neg (by omega : ¬z.toNat < x.toNat)]
                exact ih ys zs hab hbc

instance : IsTotal NButton btnLE :=
  ⟨fun a b => charLeb_total a.text.data b.text.data⟩

instance : IsTrans NButton btnLE := ⟨fun _ _ _ => charLeb_trans _ _ _⟩

/-- Two sorted permutations of each other whose button texts are pairwise
distinct are equal (the sort key is only the text, so distinct texts make
the sorted order unique). -/
theorem sorted_nodup_eq : ∀ (l1 l2 : List NButton), l1.Perm l2 →
    l1.Sorted btnLE → l2.Sorted btnLE →
    (l1.map NButton.text).Nodup → l1 = l2 := by
  intro l1
  induction l1 with
  | nil => intro l2 hp _ _ _; exact hp.symm.eq_nil.symm
  | cons a t1 ih =>
    intro l2 hp hs1 hs2 hnd
    cases l2 with
    | nil => exact absurd hp.eq_nil (by simp)
    | cons b t2 =>
      have hab : a = b := by
        by_cases h : a = b
        · exact h
        · exfalso
          have hbmem : b ∈ a :: t1 := hp.mem_iff.mpr (List.mem_cons_self b t2)
          have hamem : a ∈ b :: t2 := hp.mem_iff.mp (List.mem_cons_self a t1)
          have hb1 : b ∈ t1 := by
            rcases List.mem_cons.mp hbmem with h2 | h2
            · exact absurd h2.symm h
            · exact h2
          have ha2 : a ∈ t2 := by
            rcases List.mem_cons.mp hamem with h2 | h2
            · exact absurd h2 h
            · exact h2
          have r1 : btnLE a b := List.rel_of_sorted_cons hs1 b hb1
          have r2 : btnLE b a := List.rel_of_sorted_cons hs2 a ha2
          have htext : a.text = b.text :=
            String.ext (charLeb_antisymm _ _ r1 r2)
          rw [List.map_cons] at hnd
          exact (List.nodup_cons.mp hnd).1
            (htext ▸ List.mem_map_of_mem NButton.text hb1)
      subst hab
      rw [List.map_cons] at hnd
      rw [ih t2 hp.cons_inv hs1.of_cons hs2.of_cons
        (List.nodup_cons.mp hnd).2]

theorem renderList_length (L : List Node) :
    (renderNode.renderList L).length =
      (L.map (fun n => (renderNode n).length)).sum := by
  induction L with
  | nil => rfl
  | cons n rest ih =>
    show (renderNode n ++ renderNode.renderList rest).length = _
    rw [String.length_append, List.map_cons, List.sum_cons, ih]

/-! ## C6: the normalized key (corrected)

The claim that the cache key is determined solely by the sorted
tag/text/attribute triples fails on the code: the serialized structure also
contains `'html_length': len(html)` (api.py 757), so two markups with
identical triples but volatile attributes of different lengths produce
different keys.  The counterexample uses two popups that differ only in a
`div` id (`a` vs `abcdef`). -/

set_option maxRecDepth 1000000 in
/-- Counterexample for C6: two popup markups whose collected button triples
agree but whose keys differ, because the raw markup lengths differ (they
differ only in the volatile wrapper id). -/
theorem C6_counterexample :
    collectButtons
        [.elem "div" [("id", "a")]
          [.elem "button" [("type", "button")] [.text "Continue"]]] =
      collectButtons
        [.elem "div" [("id", "abcdef")]
          [.elem "button" [("type", "button")] [.text "Continue"]]] ∧
    normalize_popup_html_for_cache
        [.elem "div" [("id", "a")]
          [.elem "button" [("type", "button")] [.text "Continue"]]] ≠
      normalize_popup_html_for_cache
        [.elem "div" [("id", "abcdef")]
          [.elem "button" [("type", "button")] [.text "Continue"]]] := by
  exact ⟨by decide, by decide⟩

/-- C6 as amended (proved).  The normalized key is determined solely by the
sorted button triples together with the markup's character count: any two
popup markups yielding the same triples and the same total length — in
particular markups differing only in equally-sized volatile attributes —
normalize to the same key. -/
theorem C6_amended (doc1 doc2 : List Node)
    (h1 : collectButtons doc1 = collectButtons doc2)
    (h2 : (renderDoc doc1).length = (renderDoc doc2).length) :
    normalize_popup_html_for_cache doc1 =
      normalize_popup_html_for_cache doc2 := by
  unfold normalize_popup_html_for_cache
  rw [h1, h2]

set_option maxRecDepth 1000000 in
/-- Witness for C6 as amended: markups differing only in same-length
volatile ids (`ab` vs `cd`) and classes (`x` vs `y`) share the key. -/
theorem C6_amended_witness :
    collectButtons
        [.elem "div" [("id", "ab"), ("class", "x")]
          [.elem "button" [("type", "button")] [.text "Continue"]]] =
      collectButtons
        [.elem "div" [("id", "cd"), ("class", "y")]
          [.elem "button" [("type", "button")] [.text "Continue"]]] ∧
    normalize_popup_html_for_cache
        [.elem "div" [("id", "ab"), ("class", "x")]
          [.elem "button" [("type", "button")] [.text "Continue"]]] =
      normalize_popup_html_for_cache
        [.elem "div" [("id", "cd"), ("class", "y")]
          [.elem "button" [("type", "button")] [.text "Continue"]]] :=
  ⟨by decide,
   C6_amended _ _ (by decide) (by decide)⟩

/-! ## C7: normalization is order-independent -/

/-- C7 (confirmed).  For two popup markups containing the same interactive
elements listed in different DOM order — the sibling nodes of one are a
permutation of the other's, and the collected buttons have pairwise
distinct texts, as for `Continue` and `Cancel` — normalization returns the
same key: the collected buttons are sorted by text and the permuted markup
has the same total length. -/
theorem C7_order_independence (ns ms : List Node) (hperm : ns.Perm ms)
    (hnd : ((collectButtons ns).map NButton.text).Nodup) :
    normalize_popup_html_for_cache ns = normalize_popup_html_for_cache ms := by
  have hpb : (collectButtons ns).Perm (collectButtons ms) :=
    List.Perm.flatMap_right buttonsOfNode hperm
  have hlen : (renderDoc ns).length = (renderDoc ms).length := by
    unfold renderDoc
    rw [renderList_length, renderList_length]
    exact (hperm.map _).sum_eq
  have hsorteq : List.insertionSort btnLE (collectButtons ns) =
      List.insertionSort btnLE (collectButtons ms) := by
    apply sorted_nodup_eq
    · exact (List.perm_insertionSort btnLE _).trans
        (hpb.trans (List.perm_insertionSort btnLE _).symm)
    · exact List.sorted_insertionSort btnLE _
    · exact List.sorted_insertionSort btnLE _
    · exact (((List.perm_insertionSort btnLE _).map NButton.text).nodup_iff).mpr
        hnd
  unfold normalize_popup_html_for_cache
  rw [hsorteq, hlen]

set_option maxRecDepth 1000000 in
/-- Witness for C7: the `Continue` / `Cancel` popup markup and its
DOM-order-swapped variant normalize to the same key. -/
theorem C7_order_independence_witness :
    normalize_popup_html_for_cache
        [.elem "button" [("type", "button")] [.text "Continue"],
         .elem "button" [("type", "button")] [.text "Cancel"]] =
      normalize_popup_html_for_cache
        [.elem "button" [("type", "button")] [.text "Cancel"],
         .elem "button" [("type", "button")] [.text "Continue"]] :=
  C7_order_independence _ _
    (List.Perm.swap
      (Node.elem "button" [("type", "button")] [Node.text "Cancel"])
      (Node.elem "button" [("type", "button")] [Node.text "Continue"]) [])
    (by decide)

end GherkinGen
